import Mathlib

/-!
# A verification of `pyrost/data_processing.py`

This file gives a shallow embedding, in Lean 4, of the parts of
`pyrost.data_processing` (the `Transform` hierarchy and the `STData`
speckle-tracking data container) that the specification talks about, and
proves or refutes the specification's claims about them.

Conventions of the embedding:

* `numpy` arrays are nested `List`s over `ℚ` (detector data values, float
  entries) or `Bool` (masks); machine floats are idealized as rationals.
* Python exceptions become `Except PyErr`; an expression that would raise at
  run time returns `.error e`.  A Python local variable that may be left
  unassigned on some path (and then read) is modelled as an `Option` that is
  `none` on exactly those paths; reading it yields `PyErr.unboundLocal`,
  which is what CPython raises (`UnboundLocalError`).
* External numeric kernels (`median_filter`, `fft_convolve`, `ct_integrate`,
  the external solver's reference update) live in other modules of the
  project; they are taken as function parameters, never interpreted.
* The CXI protocol's attribute-kind lookup is external as well: container
  attributes are modelled as entries carrying their own kind tag.
-/

namespace Pyrost

/-- Python run-time failures relevant to the embedded code. -/
inductive PyErr where
  /-- `raise ValueError(msg)`. -/
  | valueError (msg : String)
  /-- Reading a local variable that was never assigned (`UnboundLocalError`). -/
  | unboundLocal
  deriving DecidableEq, Repr

/-- A 1-dimensional numpy array of rationals. -/
abbrev Arr1 := List ℚ

/-- A 2-dimensional numpy array of rationals (list of rows). -/
abbrev Arr2 := List (List ℚ)

/-- A 3-dimensional numpy array of rationals (stack of frames). -/
abbrev Arr3 := List (List (List ℚ))

/-- A 3-dimensional boolean numpy array (a pixel mask stack). -/
abbrev Arr3B := List (List (List Bool))

/-- A numpy value held by a container attribute: a scalar or an array of
dimension 1, 2 or 3. -/
inductive NpVal where
  | sc : ℚ → NpVal
  | a1 : Arr1 → NpVal
  | a2 : Arr2 → NpVal
  | a3 : Arr3 → NpVal
  deriving DecidableEq, Repr

/-- `numpy`'s `.shape` of a value (arrays are assumed rectangular, as numpy
guarantees). -/
def NpVal.shape : NpVal → List ℕ
  | .sc _ => []
  | .a1 xs => [xs.length]
  | .a2 xs => [xs.length, (xs.headD []).length]
  | .a3 xs => [xs.length, (xs.headD []).length, ((xs.headD []).headD []).length]

/-- Fancy indexing `data[idxs]` along the leading axis, as used by
`STData.save` with `self.good_frames`. -/
def NpVal.fancyIndex (idxs : List ℕ) : NpVal → NpVal
  | .sc q => .sc q
  | .a1 xs => .a1 (idxs.map (fun i => xs.getD i 0))
  | .a2 xs => .a2 (idxs.map (fun i => xs.getD i []))
  | .a3 xs => .a3 (idxs.map (fun i => xs.getD i []))

/-- The attribute kinds of the CXI protocol (`get_kind`). -/
inductive Kind where
  | scalar | frame | sequence | stack
  deriving DecidableEq, Repr

/-- One attribute of a data container, as seen by `STData.shape` and
`STData.save`: its name, whether it is a protocol attribute
(`attr in self.input_file.protocol`), its protocol kind, and its current
value (`none` models Python `None`). -/
structure AttrEntry where
  name : String
  inProtocol : Bool
  kind : Kind
  val : Option NpVal
  deriving DecidableEq, Repr

/-! ## `STData.shape`

The `shape` property makes three passes over the container's items: a
`sequence`-kind pass setting `shape[0]`, then a `frame`-kind pass setting
`shape[1:]`, then a `stack`-kind pass overwriting `shape[:]`. -/

/-- One iteration of a pass of `STData.shape`: skip the entry unless it is a
protocol attribute of kind `k` with a non-`None` value, otherwise apply the
pass's assignment `upd`. -/
def shapeStep (k : Kind) (upd : NpVal → List ℕ → List ℕ)
    (sh : List ℕ) (e : AttrEntry) : List ℕ :=
  match e.val with
  | none => sh
  | some v => if e.inProtocol && (e.kind == k) then upd v sh else sh

/-- `STData.shape`: `shape = [0, 0, 0]`, then
`shape[0] = data.shape[0]` for sequence-kind items, then
`shape[1:] = data.shape` for frame-kind items, then
`shape[:] = data.shape` for stack-kind items. -/
def stShape (items : List AttrEntry) : List ℕ :=
  let sh := [0, 0, 0]
  let sh := items.foldl
    (shapeStep .sequence (fun v sh => v.shape.headD 0 :: sh.drop 1)) sh
  let sh := items.foldl
    (shapeStep .frame (fun v sh => sh.take 1 ++ v.shape)) sh
  items.foldl (shapeStep .stack (fun v _ => v.shape)) sh

/-- The value of the last protocol attribute of kind `k` in the container
with a non-`None` value ("last wins" in the pass iteration order). -/
def lastPresent (k : Kind) (items : List AttrEntry) : Option NpVal :=
  items.foldl
    (fun acc e =>
      match e.val with
      | none => acc
      | some v => if e.inProtocol && (e.kind == k) then some v else acc)
    none

theorem lastPresent_acc (k : Kind) (d : NpVal → List ℕ) (t : List ℕ)
    (items : List AttrEntry) :
    ∀ acc : Option NpVal,
      (items.foldl
        (fun acc e =>
          match e.val with
          | none => acc
          | some v => if e.inProtocol && (e.kind == k) then some v else acc)
        acc).elim t d
      = items.foldl
          (fun sh e =>
            match e.val with
            | none => sh
            | some v => if e.inProtocol && (e.kind == k) then d v else sh)
          (acc.elim t d) := by
  induction items with
  | nil => intro acc; rfl
  | cons e rest ih =>
    intro acc
    simp only [List.foldl_cons]
    rw [ih]
    congr 1
    cases h : e.val with
    | none => rfl
    | some v =>
      by_cases hc : e.inProtocol && (e.kind == k)
      · simp [hc]
      · simp [hc]

/-- The `sequence` pass only rewrites the head of the running shape. -/
theorem seq_pass_eq (items : List AttrEntry) (a : ℕ) (t : List ℕ) :
    items.foldl (shapeStep .sequence (fun v sh => v.shape.headD 0 :: sh.drop 1))
        (a :: t)
      = ((lastPresent .sequence items).elim a (fun v => v.shape.headD 0)) :: t := by
  suffices h : ∀ acc : Option NpVal,
      items.foldl (shapeStep .sequence (fun v sh => v.shape.headD 0 :: sh.drop 1))
        ((acc.elim a (fun v => v.shape.headD 0)) :: t)
      = ((items.foldl
            (fun acc e =>
              match e.val with
              | none => acc
              | some v => if e.inProtocol && (e.kind == Kind.sequence)
                          then some v else acc)
            acc).elim a (fun v => v.shape.headD 0)) :: t by
    simpa [lastPresent] using h none
  induction items with
  | nil => intro acc; rfl
  | cons e rest ih =>
    intro acc
    simp only [List.foldl_cons]
    have hstep : shapeStep .sequence (fun v sh => v.shape.headD 0 :: sh.drop 1)
        ((acc.elim a (fun v => v.shape.headD 0)) :: t) e
        = ((match e.val with
            | none => acc
            | some v => if e.inProtocol && (e.kind == Kind.sequence)
                        then some v else acc).elim a (fun v => v.shape.headD 0)) :: t := by
      cases h : e.val with
      | none => simp [shapeStep, h]
      | some v =>
        by_cases hc : e.inProtocol && (e.kind == Kind.sequence)
        · simp [shapeStep, h, hc]
        · simp [shapeStep, h, hc]
    rw [hstep, ih]

/-- The `frame` pass only rewrites the tail of the running shape. -/
theorem frame_pass_eq (items : List AttrEntry) (a : ℕ) (t : List ℕ) :
    items.foldl (shapeStep .frame (fun v sh => sh.take 1 ++ v.shape)) (a :: t)
      = a :: ((lastPresent .frame items).elim t NpVal.shape) := by
  suffices h : ∀ acc : Option NpVal,
      items.foldl (shapeStep .frame (fun v sh => sh.take 1 ++ v.shape))
        (a :: (acc.elim t NpVal.shape))
      = a :: ((items.foldl
            (fun acc e =>
              match e.val with
              | none => acc
              | some v => if e.inProtocol && (e.kind == Kind.frame)
                          then some v else acc)
            acc).elim t NpVal.shape) by
    simpa [lastPresent] using h none
  induction items with
  | nil => intro acc; rfl
  | cons e rest ih =>
    intro acc
    simp only [List.foldl_cons]
    have hstep : shapeStep .frame (fun v sh => sh.take 1 ++ v.shape)
        (a :: (acc.elim t NpVal.shape)) e
        = a :: ((match e.val with
            | none => acc
            | some v => if e.inProtocol && (e.kind == Kind.frame)
                        then some v else acc).elim t NpVal.shape) := by
      cases h : e.val with
      | none => simp [shapeStep, h]
      | some v =>
        by_cases hc : e.inProtocol && (e.kind == Kind.frame)
        · simp [shapeStep, h, hc]
        · simp [shapeStep, h, hc]
    rw [hstep, ih]

/-- The `stack` pass overwrites the running shape wholesale. -/
theorem stack_pass_eq (items : List AttrEntry) (sh : List ℕ) :
    items.foldl (shapeStep .stack (fun v _ => v.shape)) sh
      = (lastPresent .stack items).elim sh NpVal.shape := by
  suffices h : ∀ acc : Option NpVal,
      items.foldl (shapeStep .stack (fun v _ => v.shape))
        (acc.elim sh NpVal.shape)
      = (items.foldl
            (fun acc e =>
              match e.val with
              | none => acc
              | some v => if e.inProtocol && (e.kind == Kind.stack)
                          then some v else acc)
            acc).elim sh NpVal.shape by
    simpa [lastPresent] using h none
  induction items with
  | nil => intro acc; rfl
  | cons e rest ih =>
    intro acc
    simp only [List.foldl_cons]
    have hstep : shapeStep .stack (fun v _ => v.shape)
        (acc.elim sh NpVal.shape) e
        = (match e.val with
            | none => acc
            | some v => if e.inProtocol && (e.kind == Kind.stack)
                        then some v else acc).elim sh NpVal.shape := by
      cases h : e.val with
      | none => simp [shapeStep, h]
      | some v =>
        by_cases hc : e.inProtocol && (e.kind == Kind.stack)
        · simp [shapeStep, h, hc]
        · simp [shapeStep, h, hc]
    rw [hstep, ih]

/-- A container holding only a stack-kind `data` of shape `(5, 10, 12)` and
a conflicting frame-kind `whitefield` of shape `(8, 8)` (listed after the
stack attribute, so only pass order decides). -/
def exampleItems : List AttrEntry :=
  [⟨"data", true, .stack,
      some (.a3 (List.replicate 5 (List.replicate 10 (List.replicate 12 (0 : ℚ)))))⟩,
   ⟨"whitefield", true, .frame,
      some (.a2 (List.replicate 8 (List.replicate 8 (0 : ℚ))))⟩]

/-- C4: `shape` is derived, never stored: the first dimension comes from the
(last) present `sequence`-kind attribute, the trailing dimensions from the
(last) present `frame`-kind attribute, all overridden wholesale by a present
`stack`-kind attribute's full shape; in particular a stack-kind attribute of
shape `(5,10,12)` together with a conflicting frame-kind attribute of shape
`(8,8)` yields exactly `(5,10,12)`. -/
theorem stShape_derivation :
    (∀ items : List AttrEntry,
      stShape items
        = (lastPresent .stack items).elim
            (((lastPresent .sequence items).elim 0 (fun v => v.shape.headD 0))
              :: ((lastPresent .frame items).elim [0, 0] NpVal.shape))
            NpVal.shape)
    ∧ stShape exampleItems = [5, 10, 12] := by
  constructor
  · intro items
    show (List.foldl (shapeStep .stack (fun v _ => v.shape))
        (List.foldl (shapeStep .frame (fun v sh => sh.take 1 ++ v.shape))
          (List.foldl
            (shapeStep .sequence (fun v sh => v.shape.headD 0 :: sh.drop 1))
            [0, 0, 0] items) items) items) = _
    rw [seq_pass_eq items 0 [0, 0], frame_pass_eq, stack_pass_eq]
  · decide

/-! ## Transforms

`Transform` and its variants `Crop`, `Downscale`, `Mirror` and
`ComposeTransforms` remap a pair of 2-dimensional index grids
`(ss_idxs, fs_idxs)`. -/

/-- A 2-dimensional grid of values (a numpy index array). -/
abbrev Grid (α : Type) := List (List α)

/-- Python slice `xs[a:b]` for non-negative bounds. -/
def pySlice (a b : ℕ) (xs : List α) : List α := (xs.take b).drop a

/-- Python strided slice `xs[::s]` (every `s`-th element, for `s ≥ 1`). -/
def pyStride (s : ℕ) (xs : List α) : List α :=
  xs.enum.filterMap (fun p => if p.1 % s == 0 then some p.2 else none)

/-- The transform variants of `data_processing.py`.  `Mirror`'s axis is kept
as an integer because its constructor validates it; `ComposeTransforms` holds
the list of sub-transforms. -/
inductive Transform where
  | crop (roi : List ℕ)
  | downscale (scale : ℕ)
  | mirror (axis : ℤ)
  | compose (transforms : List Transform)

mutual

/-- `index_array` of each transform variant.  `Crop` slices to the region of
interest (with the degenerate one-row / one-column special cases),
`Downscale` subsamples with step `scale` on both axes, `Mirror` reverses
along its axis (raising `ValueError` on any other axis value, as the source
does inside `index_array`), and `ComposeTransforms` applies each
sub-transform's `index_array` in order, left to right. -/
def Transform.indexArray {α : Type} :
    Transform → Grid α × Grid α → Except PyErr (Grid α × Grid α)
  | .crop roi, (ss, fs) =>
      if ss.length == 1 then
        .ok (ss.map (pySlice (roi.getD 2 0) (roi.getD 3 0)),
             fs.map (pySlice (roi.getD 2 0) (roi.getD 3 0)))
      else if (ss.headD []).length == 1 then
        .ok (pySlice (roi.getD 0 0) (roi.getD 1 0) ss,
             pySlice (roi.getD 0 0) (roi.getD 1 0) fs)
      else
        .ok ((pySlice (roi.getD 0 0) (roi.getD 1 0) ss).map
               (pySlice (roi.getD 2 0) (roi.getD 3 0)),
             (pySlice (roi.getD 0 0) (roi.getD 1 0) fs).map
               (pySlice (roi.getD 2 0) (roi.getD 3 0)))
  | .downscale s, (ss, fs) =>
      .ok ((pyStride s ss).map (pyStride s), (pyStride s fs).map (pyStride s))
  | .mirror a, (ss, fs) =>
      if a == 0 then .ok (ss.reverse, fs.reverse)
      else if a == 1 then .ok (ss.map List.reverse, fs.map List.reverse)
      else .error (.valueError "Axis must equal to 0 or 1")
  | .compose ts, g => Transform.indexArrayList ts g

/-- The loop of `ComposeTransforms.index_array`. -/
def Transform.indexArrayList {α : Type} :
    List Transform → Grid α × Grid α → Except PyErr (Grid α × Grid α)
  | [], g => .ok g
  | t :: ts, g =>
      match t.indexArray g with
      | .error e => .error e
      | .ok g1 => Transform.indexArrayList ts g1

end

/-- `Mirror.__init__`: rejects any axis outside `{0, 1}`. -/
def mkMirror (axis : ℤ) : Except PyErr Transform :=
  if axis = 0 ∨ axis = 1 then .ok (.mirror axis)
  else .error (.valueError "Axis must equal to 0 or 1")

mutual

/-- `type(transform)(**transform.state_dict())`: re-run each variant's
constructor on its serialized parameters. -/
def Transform.reconstruct : Transform → Except PyErr Transform
  | .crop roi => .ok (.crop roi)
  | .downscale s => .ok (.downscale s)
  | .mirror a => mkMirror a
  | .compose ts => mkCompose ts

/-- `ComposeTransforms.__init__`: reconstruct every element from its
serialized parameters, then require at least two transforms. -/
def mkCompose (ts : List Transform) : Except PyErr Transform :=
  match Transform.reconstructList ts with
  | .error e => .error e
  | .ok rs =>
      if rs.length < 2 then
        .error (.valueError "Two or more transforms are needed to compose.")
      else .ok (.compose rs)

/-- The reconstruction loop of `ComposeTransforms.__init__`. -/
def Transform.reconstructList : List Transform → Except PyErr (List Transform)
  | [] => .ok []
  | t :: ts =>
      match t.reconstruct with
      | .error e => .error e
      | .ok r =>
          match Transform.reconstructList ts with
          | .error e => .error e
          | .ok rs => .ok (r :: rs)

end

/-- Whether an embedded Python call returned normally. -/
def exceptOk : Except PyErr α → Bool
  | .ok _ => true
  | .error _ => false

theorem reconstructList_length (ts rs : List Transform)
    (h : Transform.reconstructList ts = .ok rs) : rs.length = ts.length := by
  induction ts generalizing rs with
  | nil =>
    simp only [Transform.reconstructList] at h
    cases h
    rfl
  | cons t ts ih =>
    simp only [Transform.reconstructList] at h
    cases hr : t.reconstruct with
    | error e => rw [hr] at h; cases h
    | ok r =>
      rw [hr] at h
      cases hrs : Transform.reconstructList ts with
      | error e => rw [hrs] at h; cases h
      | ok rs' =>
        rw [hrs] at h
        cases h
        simp [ih rs' hrs]

/-- C5: constructing a `ComposeTransforms` of fewer than two transforms
fails with an error, and the `index_array` of a composition of two
transforms equals applying the first transform's `index_array` and then the
second's, in that order. -/
theorem compose_spec :
    (∀ ts : List Transform, ts.length < 2 → exceptOk (mkCompose ts) = false)
    ∧ (∀ (t1 t2 : Transform) (ss fs : Grid ℚ),
        Transform.indexArray (.compose [t1, t2]) (ss, fs)
          = Except.bind (Transform.indexArray t1 (ss, fs))
              (Transform.indexArray t2)) := by
  constructor
  · intro ts hlen
    cases hrec : Transform.reconstructList ts with
    | error e => simp [mkCompose, hrec, exceptOk]
    | ok rs =>
      have : rs.length = ts.length := reconstructList_length ts rs hrec
      have hrs : rs.length < 2 := this ▸ hlen
      simp [mkCompose, hrec, exceptOk, hrs]
  · intro t1 t2 ss fs
    show Transform.indexArrayList [t1, t2] (ss, fs) = _
    cases h1 : t1.indexArray (ss, fs) with
    | error e =>
      simp [Transform.indexArrayList, h1, Except.bind]
    | ok g1 =>
      cases h2 : t2.indexArray g1 with
      | error e =>
        simp [Transform.indexArrayList, h1, h2, Except.bind]
      | ok g2 =>
        simp [Transform.indexArrayList, h1, h2, Except.bind]

/-- Witness for `compose_spec` at concrete inputs. -/
theorem compose_spec_witness :
    exceptOk (mkCompose [Transform.downscale 2]) = false
    ∧ Transform.indexArray (.compose [.mirror 0, .downscale 2])
        ([[(0 : ℚ), 1], [2, 3]], [[0, 1], [2, 3]])
      = Except.bind
          (Transform.indexArray (.mirror 0) ([[(0 : ℚ), 1], [2, 3]], [[0, 1], [2, 3]]))
          (Transform.indexArray (.downscale 2)) :=
  ⟨compose_spec.1 [Transform.downscale 2] (by decide),
   compose_spec.2 (.mirror 0) (.downscale 2) [[(0 : ℚ), 1], [2, 3]] [[0, 1], [2, 3]]⟩

/-! ## `STData.update_mask`

The bad-pixel mask update.  The external kernels used by the `perc-bad`
branch (`median_filter` and `np.percentile`) are taken as parameters. -/

/-- Elementwise map over a 3-dimensional array. -/
def map3 (f : α → β) (xs : List (List (List α))) : List (List (List β)) :=
  xs.map (fun p => p.map (fun r => r.map f))

/-- Elementwise combination of two 3-dimensional arrays (numpy broadcasting
of equal shapes). -/
def zip3With (f : α → β → γ) (a : List (List (List α)))
    (b : List (List (List β))) : List (List (List γ)) :=
  List.zipWith (fun p q => List.zipWith (fun r s => List.zipWith f r s) p q) a b

/-- `np.ones(shape, dtype=bool)` for a 3-tuple shape. -/
def ones3 (sh : List ℕ) : Arr3B :=
  List.replicate (sh.getD 0 0)
    (List.replicate (sh.getD 1 0) (List.replicate (sh.getD 2 0) true))

/-- `m[i, j, k]` with a default for out-of-range indices. -/
def get3 (m : List (List (List α))) (d : α) (i j k : ℕ) : α :=
  ((m.getD i []).getD j []).getD k d

/-- The shape of a 3-dimensional array (assumed rectangular). -/
def shape3 (m : List (List (List α))) : List ℕ :=
  [m.length, (m.headD []).length, ((m.headD []).headD []).length]

/-- The part of the container state read by `update_mask`: the protocol
items (for `self.shape`), the data stack and the current mask. -/
structure MaskData where
  items : List AttrEntry
  data : Arr3
  mask : Arr3B
  deriving DecidableEq, Repr

/-- The attribute dictionary returned by `update_mask`
(`{'mask': ..., 'whitefield': None}`); the cached whitefield is always
cleared. -/
structure MaskPatch where
  mask : Arr3B
  whitefield : Option Arr2
  deriving DecidableEq, Repr

/-- `STData.update_mask`.  The update keyword selects the working data
(`reset`: raw data, `multiply`: data with the current mask applied, anything
else: `ValueError`).  The method dispatch computes the new mask; note that
on an unrecognized `method` the source merely evaluates
`ValueError('invalid method argument')` without raising it, so the local
variable `mask` stays unassigned (modelled by `none`) and the subsequent
read of `mask` raises `UnboundLocalError`.  The `perc-bad` branch's integer
casts are idealized away (values are already exact rationals here). -/
def update_mask (mf : Arr3 → Arr3) (perc : Arr3 → ℚ → ℚ) (c : MaskData)
    (method : String) (pmin pmax vmin vmax : ℚ) (update : String) :
    Except PyErr MaskPatch :=
  match (if update == "reset" then some c.data
         else if update == "multiply" then
           some (zip3With (fun d m => d * (if m then 1 else 0)) c.data c.mask)
         else none) with
  | none => .error (.valueError "Invalid update keyword")
  | some data =>
    let mask? : Option Arr3B :=
      if method == "no-bad" then some (ones3 (stShape c.items))
      else if method == "range-bad" then
        some (map3 (fun v => decide (vmin ≤ v) && decide (v < vmax)) data)
      else if method == "perc-bad" then
        let average := mf data
        let offsets := zip3With (fun d a => d - a) data average
        some (map3 (fun o => decide (perc offsets pmin ≤ o)
                              && decide (o ≤ perc offsets pmax)) offsets)
      else none
    if update == "reset" then
      match mask? with
      | some m => .ok ⟨m, none⟩
      | none => .error .unboundLocal
    else if update == "multiply" then
      match mask? with
      | some m => .ok ⟨zip3With and m c.mask, none⟩
      | none => .error .unboundLocal
    else .error (.valueError "Invalid update keyword")

theorem getD_map_of_lt (f : α → β) :
    ∀ (xs : List α) (i : ℕ), i < xs.length → ∀ (d : β) (d' : α),
      (xs.map f).getD i d = f (xs.getD i d')
  | [], i, h => absurd h (by simp)
  | x :: xs, 0, _ => fun d d' => rfl
  | x :: xs, i + 1, h => fun d d' =>
      getD_map_of_lt f xs i (by simpa using h) d d'

theorem get3_map3 (f : α → β) (m : List (List (List α))) (i j k : ℕ)
    (d : β) (d' : α)
    (hi : i < m.length) (hj : j < (m.getD i []).length)
    (hk : k < ((m.getD i []).getD j []).length) :
    get3 (map3 f m) d i j k = f (get3 m d' i j k) := by
  unfold get3 map3
  rw [getD_map_of_lt _ m i hi [] []]
  rw [getD_map_of_lt _ (m.getD i []) j hj [] []]
  rw [getD_map_of_lt f ((m.getD i []).getD j []) k hk d d']

/-- C2 support: for every method string outside
`{'no-bad', 'range-bad', 'perc-bad'}` with a valid `update` keyword,
`update_mask` raises `UnboundLocalError` (the local `mask` was never
assigned, because the source builds a `ValueError` without raising it) — it
does not raise an invalid-argument `ValueError`. -/
theorem update_mask_invalid_method (mf : Arr3 → Arr3) (perc : Arr3 → ℚ → ℚ)
    (c : MaskData) (method : String) (pmin pmax vmin vmax : ℚ)
    (update : String)
    (hm : method ∉ (["no-bad", "range-bad", "perc-bad"] : List String))
    (hu : update = "reset" ∨ update = "multiply") :
    update_mask mf perc c method pmin pmax vmin vmax update
      = .error .unboundLocal := by
  have h1 : (method == "no-bad") = false := by
    simp only [beq_eq_false_iff_ne]; intro h; exact hm (by simp [h])
  have h2 : (method == "range-bad") = false := by
    simp only [beq_eq_false_iff_ne]; intro h; exact hm (by simp [h])
  have h3 : (method == "perc-bad") = false := by
    simp only [beq_eq_false_iff_ne]; intro h; exact hm (by simp [h])
  rcases hu with hu | hu <;> subst hu <;>
    simp [update_mask, h1, h2, h3]

/-- Witness for `update_mask_invalid_method`: the failing input of the spec's
open question, a concrete container with an unrecognized method string. -/
theorem update_mask_invalid_method_witness :
    update_mask (fun d => d) (fun _ _ => 0) ⟨[], [[[150]]], [[[true]]]⟩
        "bad-method" 0 (9999 / 100) 0 65535 "reset"
      = .error .unboundLocal :=
  update_mask_invalid_method (fun d => d) (fun _ _ => 0)
    ⟨[], [[[150]]], [[[true]]]⟩ "bad-method" 0 (9999 / 100) 0 65535 "reset"
    (by decide) (Or.inl rfl)

/-- C7: `update_mask` with method `range-bad` marks a pixel valid exactly
when its value lies in the half-open interval `[vmin, vmax)` — a pixel with
value 150 under `vmin = 0`, `vmax = 100` is marked false — and
`update_mask` with method `no-bad` always yields an all-true mask with the
container's shape. -/
theorem update_mask_range_and_nobad (mf : Arr3 → Arr3) (perc : Arr3 → ℚ → ℚ)
    (c : MaskData) (pmin pmax vmin vmax : ℚ) :
    ((update_mask mf perc c "range-bad" pmin pmax vmin vmax "reset").map
        MaskPatch.mask
      = .ok (map3 (fun v => decide (vmin ≤ v) && decide (v < vmax)) c.data))
    ∧ (∀ i j k : ℕ, i < c.data.length → j < (c.data.getD i []).length →
        k < ((c.data.getD i []).getD j []).length →
        get3 (map3 (fun v => decide (vmin ≤ v) && decide (v < vmax)) c.data)
            false i j k
          = (decide (vmin ≤ get3 c.data 0 i j k)
              && decide (get3 c.data 0 i j k < vmax)))
    ∧ ((update_mask mf perc ⟨[], [[[150]]], [[[true]]]⟩ "range-bad"
          pmin pmax 0 100 "reset").map MaskPatch.mask = .ok [[[false]]])
    ∧ ((update_mask mf perc c "no-bad" pmin pmax vmin vmax "reset").map
        MaskPatch.mask = .ok (ones3 (stShape c.items)))
    ∧ (∀ sh : List ℕ, ∀ p ∈ ones3 sh, ∀ r ∈ p, ∀ b ∈ r, b = true)
    ∧ (∀ n h w : ℕ, 0 < n → 0 < h → shape3 (ones3 [n, h, w]) = [n, h, w]) := by
  refine ⟨rfl, ?_, rfl, rfl, ?_, ?_⟩
  · intro i j k hi hj hk
    exact get3_map3 _ c.data i j k false 0 hi hj hk
  · intro sh p hp r hr b hb
    rw [List.eq_of_mem_replicate hp] at hr
    rw [List.eq_of_mem_replicate hr] at hb
    exact List.eq_of_mem_replicate hb
  · intro n h w hn hh
    obtain ⟨n, rfl⟩ : ∃ m, n = m + 1 :=
      ⟨n - 1, (Nat.succ_pred_eq_of_pos hn).symm⟩
    obtain ⟨h, rfl⟩ : ∃ m, h = m + 1 :=
      ⟨h - 1, (Nat.succ_pred_eq_of_pos hh).symm⟩
    simp [shape3, ones3, List.replicate_succ]

/-- Witness for `update_mask_range_and_nobad` at concrete inputs: the pixel
with value 150 under `vmin = 0`, `vmax = 100`, and a `1 × 1 × 1` all-true
mask shape. -/
theorem update_mask_range_and_nobad_witness :
    (get3 (map3 (fun v => decide ((0 : ℚ) ≤ v) && decide (v < 100))
        ([[[150]]] : Arr3)) false 0 0 0
      = (decide ((0 : ℚ) ≤ get3 ([[[150]]] : Arr3) 0 0 0 0)
          && decide (get3 ([[[150]]] : Arr3) 0 0 0 0 < 100)))
    ∧ shape3 (ones3 [1, 1, 1]) = [1, 1, 1] :=
  ⟨(update_mask_range_and_nobad (fun d => d) (fun _ _ => 0)
      ⟨[], [[[150]]], [[[true]]]⟩ 0 0 0 100).2.1 0 0 0
      (by decide) (by decide) (by decide),
   (update_mask_range_and_nobad (fun d => d) (fun _ _ => 0)
      ⟨[], [[[150]]], [[[true]]]⟩ 0 0 0 100).2.2.2.2.2 1 1 1
      (by decide) (by decide)⟩

/-! ## `STData._pixel_translations`

`translations` has shape `(N, 3)` and `basis_vectors` shape `(N, 2, 3)`
(one pair of detector basis vectors per frame; a constant pair is the
broadcast special case where every frame carries the same pair).  The
projection `(translations[:, None] * basis_vectors).sum(axis=-1)` therefore
pairs each translation with its own frame's basis vectors. -/

/-- A physical 3-vector. -/
abbrev Vec3 := ℚ × ℚ × ℚ

/-- Euclidean inner product of two 3-vectors. -/
def dot3 (a b : Vec3) : ℚ := a.1 * b.1 + a.2.1 * b.2.1 + a.2.2 * b.2.2

/-- Componentwise sum of two 3-vectors. -/
def vadd3 (a b : Vec3) : Vec3 := (a.1 + b.1, a.2.1 + b.2.1, a.2.2 + b.2.2)

/-- `pt -= pt.mean(axis=0)` on one detector-axis component. -/
def demean (ys : List ℚ) : List ℚ :=
  ys.map (fun y => y - ys.sum / (ys.length : ℚ))

/-- `pt -= pt[0]; pt -= pt.mean(axis=0)` on one detector-axis component. -/
def refAndDemean (xs : List ℚ) : List ℚ :=
  demean (xs.map (fun x => x - xs.headD 0))

/-- `STData._pixel_translations`: project each physical translation onto its
frame's two detector basis vectors, scale by `|distance / defocus|` per axis
normalized by the squared basis-vector norm, re-reference to the first frame
and remove the mean.  The slow axis uses `defocus_y`, the fast axis
`defocus_x`; the two axis components are computed componentwise. -/
def pixelTranslations (ts : List Vec3) (bs : List (Vec3 × Vec3))
    (dist dfY dfX : ℚ) : List (ℚ × ℚ) :=
  List.zip
    (refAndDemean ((List.zip ts bs).map
      (fun p => dot3 p.1 p.2.1 * |dist / dfY| / dot3 p.2.1 p.2.1)))
    (refAndDemean ((List.zip ts bs).map
      (fun p => dot3 p.1 p.2.2 * |dist / dfX| / dot3 p.2.2 p.2.2)))

theorem zip_replicate_map {α β γ : Type} (f : α × β → γ) :
    ∀ (l : List α) (b : β),
      (List.zip l (List.replicate l.length b)).map f
        = l.map (fun t => f (t, b))
  | [], _ => rfl
  | a :: l, b => by
      simp only [List.length_cons, List.replicate_succ, List.zip_cons_cons,
        List.map_cons]
      rw [zip_replicate_map f l b]

theorem refAndDemean_shift (xs : List ℚ) (k : ℚ) (h : xs ≠ []) :
    refAndDemean (xs.map (fun x => x + k)) = refAndDemean xs := by
  cases xs with
  | nil => exact absurd rfl h
  | cons a l =>
    unfold refAndDemean
    have hys : ((a :: l).map (fun x => x + k)).map
        (fun x => x - (((a :: l).map (fun x => x + k)).headD 0))
        = (a :: l).map (fun x => x - (a :: l).headD 0) := by
      simp only [List.map_cons, List.headD_cons, List.map_map]
      congr 1
      · ring
      · apply List.map_congr_left
        intro x _
        simp only [Function.comp_apply]
        ring
    rw [hys]

/-- C6 (counterexample to the claim as stated): with basis vectors that vary
from frame to frame, a uniform constant offset of all translations does
change `pixel_translations` — the projected offsets differ per frame, so
neither the first-frame re-referencing nor the mean removal cancels them. -/
theorem pixel_translations_offset_cex :
    pixelTranslations
        (([((0 : ℚ), 0, 0), ((0 : ℚ), 0, 0)]).map
          (fun t => vadd3 t ((1 : ℚ), 0, 0)))
        [(((1 : ℚ), 0, 0), ((1 : ℚ), 0, 0)),
         (((0 : ℚ), 1, 0), ((0 : ℚ), 1, 0))] 1 1 1
      ≠ pixelTranslations [((0 : ℚ), 0, 0), ((0 : ℚ), 0, 0)]
          [(((1 : ℚ), 0, 0), ((1 : ℚ), 0, 0)),
           (((0 : ℚ), 1, 0), ((0 : ℚ), 1, 0))] 1 1 1 := by
  norm_num [pixelTranslations, refAndDemean, demean, dot3, vadd3,
    List.zip_cons_cons]

/-- C6 (amended): when every frame carries the same basis-vector pair (in
particular under numpy broadcasting of a single pair), adding a constant
offset uniformly to all translations leaves `pixel_translations` unchanged:
the projected offset is the same for every frame and the first-frame
re-referencing (and mean removal) cancels it. -/
theorem pixel_translations_offset_invariant (ts : List Vec3)
    (cv b0 b1 : Vec3) (dist dfY dfX : ℚ) (h : 0 < ts.length) :
    pixelTranslations (ts.map (fun t => vadd3 t cv))
        (List.replicate ts.length (b0, b1)) dist dfY dfX
      = pixelTranslations ts (List.replicate ts.length (b0, b1)) dist dfY dfX := by
  have hne : ts ≠ [] := by
    intro hnil
    rw [hnil] at h
    exact absurd h (by simp)
  have hlen : (ts.map (fun t => vadd3 t cv)).length = ts.length :=
    List.length_map ts _
  have key : ∀ b : Vec3, ∀ m : ℚ,
      (ts.map (fun t => vadd3 t cv)).map
          (fun t => dot3 t b * m / dot3 b b)
        = (ts.map (fun t => dot3 t b * m / dot3 b b)).map
            (fun x => x + dot3 cv b * m / dot3 b b) := by
    intro b m
    rw [List.map_map, List.map_map]
    apply List.map_congr_left
    intro t _
    simp only [Function.comp_apply]
    show dot3 (vadd3 t cv) b * m / dot3 b b
        = dot3 t b * m / dot3 b b + dot3 cv b * m / dot3 b b
    unfold dot3 vadd3
    ring
  have hmapne : ∀ f : Vec3 → ℚ, ts.map f ≠ [] := by
    intro f hnil
    exact hne (List.map_eq_nil_iff.mp hnil)
  unfold pixelTranslations
  conv_lhs => rw [← hlen]
  simp only [zip_replicate_map]
  rw [key b0 |dist / dfY|, key b1 |dist / dfX|]
  rw [refAndDemean_shift _ _ (hmapne _), refAndDemean_shift _ _ (hmapne _)]

/-- Witness for `pixel_translations_offset_invariant` at a concrete
one-frame input. -/
theorem pixel_translations_offset_invariant_witness :
    pixelTranslations
        (([((1 : ℚ), 2, 3)]).map (fun t => vadd3 t ((1 : ℚ), 1, 1)))
        (List.replicate 1 (((1 : ℚ), 0, 0), ((0 : ℚ), 1, 0))) 2 1 3
      = pixelTranslations [((1 : ℚ), 2, 3)]
          (List.replicate 1 (((1 : ℚ), 0, 0), ((0 : ℚ), 1, 0))) 2 1 3 :=
  pixel_translations_offset_invariant [((1 : ℚ), 2, 3)] ((1 : ℚ), 1, 1)
    ((1 : ℚ), 0, 0) ((0 : ℚ), 1, 0) 2 1 3 (by decide)

/-! ## `STData.save` -/

/-- The container state read by `STData.save`: whether `output_file` is
set, the container's attribute entries, and `good_frames`.  The protocol
helper `str_to_list` is the identity on a list of names. -/
structure SaveCtx where
  outputFile : Bool
  items : List AttrEntry
  goodFrames : List ℕ
  deriving DecidableEq, Repr

/-- `STData.save`: raise `ValueError` when `output_file` is not defined;
default the attribute list to the names of attributes currently holding a
value (`self.contents()`); then, for each requested attribute that is a
protocol attribute with a non-`None` value, pass its value to
`output_file.save_attribute` — sliced to `data[self.good_frames]` when its
kind is `stack` or `sequence`, whole otherwise.  The result collects the
`(name, payload)` pairs handed to `save_attribute`, in order. -/
def stSave (c : SaveCtx) (attributes : Option (List String)) :
    Except PyErr (List (String × NpVal)) :=
  if !c.outputFile then
    .error (.valueError "output_file is not defined inside the container")
  else
    let attrs := attributes.getD
      ((c.items.filter (fun e => e.val.isSome)).map (fun e => e.name))
    .ok (attrs.filterMap (fun nm =>
      match c.items.find? (fun e => e.name == nm) with
      | none => none
      | some e =>
          match e.val with
          | none => none
          | some v =>
              if e.inProtocol then
                some (nm,
                  if e.kind == Kind.stack || e.kind == Kind.sequence then
                    v.fancyIndex c.goodFrames
                  else v)
              else none))

/-- C9: every payload written by `save` comes from a present protocol
attribute of the container; stack- and sequence-kind payloads are exactly
the `good_frames`-indexed slice of the attribute's value, while scalar- and
frame-kind payloads are the whole value. -/
theorem save_slices_by_good_frames (c : SaveCtx) (names : List String)
    (L : List (String × NpVal)) (hout : c.outputFile = true)
    (hsave : stSave c (some names) = .ok L) :
    ∀ p ∈ L, ∃ e ∈ c.items, e.name = p.1 ∧ e.inProtocol = true ∧
      ∃ v, e.val = some v ∧
        p.2 = (if e.kind = Kind.stack ∨ e.kind = Kind.sequence then
                 v.fancyIndex c.goodFrames
               else v) := by
  intro p hp
  have hL : L = names.filterMap (fun nm =>
      match c.items.find? (fun e => e.name == nm) with
      | none => none
      | some e =>
          match e.val with
          | none => none
          | some v =>
              if e.inProtocol then
                some (nm,
                  if e.kind == Kind.stack || e.kind == Kind.sequence then
                    v.fancyIndex c.goodFrames
                  else v)
              else none) := by
    rw [stSave, hout] at hsave
    simpa using hsave.symm
  rw [hL] at hp
  obtain ⟨nm, hmemnames, hnm⟩ := List.mem_filterMap.mp hp
  cases hfind : c.items.find? (fun e => e.name == nm) with
  | none => simp [hfind] at hnm
  | some e =>
    simp only [hfind] at hnm
    cases hval : e.val with
    | none => simp [hval] at hnm
    | some v =>
      simp only [hval] at hnm
      by_cases hproto : e.inProtocol = true
      · rw [if_pos hproto] at hnm
        cases hnm
        refine ⟨e, List.mem_of_find?_eq_some hfind, ?_, hproto, v, hval, ?_⟩
        · show e.name = nm
          have hp := List.find?_some hfind
          simpa using hp
        · by_cases hk : e.kind = Kind.stack ∨ e.kind = Kind.sequence
          · have hb : (e.kind == Kind.stack || e.kind == Kind.sequence)
                = true := by
              rcases hk with hk | hk <;> simp [hk]
            simp [hb, hk]
          · have hnk : e.kind ≠ Kind.stack ∧ e.kind ≠ Kind.sequence := by
              push_neg at hk
              exact hk
            have hb : (e.kind == Kind.stack || e.kind == Kind.sequence)
                = false := by
              simp [hnk.1, hnk.2]
            simp [hb, hk]
      · rw [if_neg hproto] at hnm
        cases hnm

/-- Witness for `save_slices_by_good_frames` at a concrete container: a
stack attribute with two frames of which only frame 0 is good. -/
theorem save_slices_by_good_frames_witness :
    ∃ e ∈ [AttrEntry.mk "data" true Kind.stack
              (some (.a3 [[[(1 : ℚ)]], [[2]]]))],
      e.name = "data" ∧ e.inProtocol = true ∧
      ∃ v, e.val = some v ∧
        NpVal.a3 [[[(1 : ℚ)]]]
          = (if e.kind = Kind.stack ∨ e.kind = Kind.sequence then
               v.fancyIndex [0]
             else v) := by
  have h := save_slices_by_good_frames
    ⟨true, [AttrEntry.mk "data" true Kind.stack
              (some (.a3 [[[(1 : ℚ)]], [[2]]]))], [0]⟩
    ["data"] [("data", NpVal.a3 [[[(1 : ℚ)]]])] rfl rfl
    ("data", NpVal.a3 [[[(1 : ℚ)]]]) (by simp)
  simpa using h

/-! ## `STData.clear`

The `DataContainer` base class and its `dict_to_object` decorator are not
part of this module.  Modelled from the spec: the container is an immutable
mapping from attribute name to value, `attr in self` is membership in that
mapping, `self.get(attr)` returns the stored value (or `None` when absent),
and every decorated update operation returns a dictionary that is laid over
the prior mapping to build the new container. -/

/-- A value in a container slot as `clear` sees it: a numpy array
(`isinstance(data, np.ndarray)` holds) or a plain scalar. -/
inductive PyVal where
  | num : ℚ → PyVal
  | arr : NpVal → PyVal
  deriving DecidableEq, Repr

/-- A container attribute mapping: names to optional values (`none` models a
slot holding Python `None`). -/
abbrev PyDict := List (String × Option PyVal)

/-- Modelled from the spec: `DataContainer.get` — the stored value of the
first entry with the given name, `None` when absent. -/
def pyGet (c : PyDict) (nm : String) : Option PyVal :=
  match c.find? (fun e => e.1 == nm) with
  | none => none
  | some e => e.2

/-- Modelled from the spec: `attr in self` — membership in the mapping. -/
def pyContains (c : PyDict) (nm : String) : Bool :=
  (c.find? (fun e => e.1 == nm)).isSome

/-- `isinstance(data, np.ndarray)` on an optional slot value. -/
def isArrOpt : Option PyVal → Bool
  | some (.arr _) => true
  | _ => false

/-- The test of `clear`'s loop body:
`attr in self and isinstance(data, np.ndarray)`. -/
def clearSel (c : PyDict) (nm : String) : Bool :=
  pyContains c nm && isArrOpt (pyGet c nm)

/-- `STData.clear`: default the requested attributes to `self.keys()`; for
each requested attribute that is in the container and currently holds an
array, put `None` into the returned update dictionary.  Non-array values
(scalars) are never cleared. -/
def stClear (c : PyDict) (attributes : Option (List String)) : PyDict :=
  let attrs := attributes.getD (c.map (fun e => e.1))
  attrs.filterMap (fun nm =>
    if clearSel c nm then some (nm, none) else none)

/-- Modelled from the spec: the `dict_to_object` decorator — the new
container is the prior mapping overridden by the update dictionary (for
update dictionaries whose keys name existing attributes, as `clear`'s
does). -/
def applyPatch (c : PyDict) (patch : PyDict) : PyDict :=
  c.map (fun e =>
    match patch.find? (fun p => p.1 == e.1) with
    | some p => (e.1, p.2)
    | none => e)

theorem find?_clear_list (c : PyDict) (attrs : List String) (nm : String) :
    (attrs.filterMap (fun nm' =>
        if clearSel c nm' then some (nm', (none : Option PyVal))
        else none)).find? (fun p => p.1 == nm)
      = if nm ∈ attrs ∧ clearSel c nm = true
        then some (nm, none) else none := by
  induction attrs with
  | nil => simp
  | cons a l ih =>
    by_cases ha : clearSel c a = true
    · have hfa : (if clearSel c a then some (a, (none : Option PyVal))
          else none) = some (a, none) := if_pos ha
      simp only [List.filterMap_cons, hfa]
      by_cases hnm : a = nm
      · subst hnm
        rw [List.find?_cons_of_pos _ (by simp)]
        rw [if_pos ⟨List.mem_cons_self a l, ha⟩]
      · rw [List.find?_cons_of_neg _ (by simp [hnm]), ih]
        have hmemiff : (nm ∈ a :: l ∧ clearSel c nm = true)
            ↔ (nm ∈ l ∧ clearSel c nm = true) := by
          constructor
          · rintro ⟨hm, hx⟩
            rcases List.mem_cons.mp hm with h | h
            · exact absurd h.symm hnm
            · exact ⟨h, hx⟩
          · rintro ⟨hm, hx⟩
            exact ⟨List.mem_cons_of_mem a hm, hx⟩
        by_cases hcond : nm ∈ l ∧ clearSel c nm = true
        · rw [if_pos hcond, if_pos (hmemiff.mpr hcond)]
        · rw [if_neg hcond, if_neg (fun h => hcond (hmemiff.mp h))]
    · have hfa : (if clearSel c a then some (a, (none : Option PyVal))
          else none) = none := if_neg ha
      simp only [List.filterMap_cons, hfa]
      rw [ih]
      by_cases hnm : a = nm
      · subst hnm
        have hiff : ¬ (a ∈ a :: l ∧ clearSel c a = true) := fun h => ha h.2
        have hl : ¬ (a ∈ l ∧ clearSel c a = true) := fun h => ha h.2
        rw [if_neg hl, if_neg hiff]
      · have hmemiff : (nm ∈ a :: l ∧ clearSel c nm = true)
            ↔ (nm ∈ l ∧ clearSel c nm = true) := by
          constructor
          · rintro ⟨hm, hx⟩
            rcases List.mem_cons.mp hm with h | h
            · exact absurd h.symm hnm
            · exact ⟨h, hx⟩
          · rintro ⟨hm, hx⟩
            exact ⟨List.mem_cons_of_mem a hm, hx⟩
        by_cases hcond : nm ∈ l ∧ clearSel c nm = true
        · rw [if_pos hcond, if_pos (hmemiff.mpr hcond)]
        · rw [if_neg hcond, if_neg (fun h => hcond (hmemiff.mp h))]

theorem stClear_some_eq (c : PyDict) (attrs : List String) :
    stClear c (some attrs)
      = attrs.filterMap (fun nm' =>
          if clearSel c nm' then some (nm', (none : Option PyVal))
          else none) := rfl

theorem pyGet_applyPatch (c : PyDict) (patch : PyDict) (nm : String) :
    pyGet (applyPatch c patch) nm
      = match c.find? (fun e => e.1 == nm) with
        | none => none
        | some e =>
            match patch.find? (fun p => p.1 == nm) with
            | some p => p.2
            | none => e.2 := by
  unfold pyGet applyPatch
  rw [List.find?_map]
  have hpred : ((fun e : String × Option PyVal => e.1 == nm) ∘
      (fun e : String × Option PyVal =>
        match patch.find? (fun p => p.1 == e.1) with
        | some p => (e.1, p.2)
        | none => e)) = (fun e => e.1 == nm) := by
    funext e
    simp only [Function.comp_apply]
    cases hp : patch.find? (fun p => p.1 == e.1) <;> rfl
  rw [hpred]
  cases hc : c.find? (fun e => e.1 == nm) with
  | none => rfl
  | some e =>
    have hename : e.1 = nm := by
      have hp := List.find?_some hc
      simpa using hp
    simp only [Option.map_some', hename]
    cases hpatch : patch.find? (fun p => p.1 == nm) <;> simp [hpatch]

/-- C10: `clear` sets to `None` only those requested attributes whose
current value is an array; an attribute holding a non-array scalar keeps its
value even when explicitly requested — in particular `clear()` with no
argument (`attributes := none`, defaulting to every key) preserves every
scalar attribute. -/
theorem clear_only_arrays (c : PyDict) (attrs : Option (List String))
    (nm : String) :
    (∀ v : NpVal, pyGet c nm = some (.arr v) →
      nm ∈ attrs.getD (c.map (fun e => e.1)) →
      pyGet (applyPatch c (stClear c attrs)) nm = none)
    ∧ (∀ q : ℚ, pyGet c nm = some (.num q) →
      pyGet (applyPatch c (stClear c attrs)) nm = some (.num q)) := by
  have hfind : ∀ l : List String,
      (stClear c (some l)).find? (fun p => p.1 == nm)
        = if nm ∈ l ∧ clearSel c nm = true
          then some (nm, none) else none := by
    intro l
    rw [stClear_some_eq]
    exact find?_clear_list c l nm
  constructor
  · intro v hv hmem
    rw [pyGet_applyPatch]
    have hcontains : pyContains c nm = true := by
      unfold pyGet at hv
      unfold pyContains
      cases h : c.find? (fun e => e.1 == nm) with
      | none => rw [h] at hv; cases hv
      | some e => rfl
    have harr : isArrOpt (pyGet c nm) = true := by rw [hv]; rfl
    have hsel : clearSel c nm = true := by
      unfold clearSel
      rw [hcontains, harr]
      rfl
    cases attrs with
    | none =>
      rw [show stClear c none = stClear c (some (c.map (fun e => e.1)))
            from rfl]
      rw [hfind]
      rw [if_pos ⟨by simpa using hmem, hsel⟩]
      cases h : c.find? (fun e => e.1 == nm) <;> rfl
    | some l =>
      rw [hfind]
      rw [if_pos ⟨by simpa using hmem, hsel⟩]
      cases h : c.find? (fun e => e.1 == nm) <;> rfl
  · intro q hq
    rw [pyGet_applyPatch]
    have harr : isArrOpt (pyGet c nm) = false := by rw [hq]; rfl
    have hnotsel : ∀ l : List String,
        (stClear c (some l)).find? (fun p => p.1 == nm) = none := by
      intro l
      rw [hfind]
      rw [if_neg]
      rintro ⟨-, hb⟩
      unfold clearSel at hb
      rw [harr] at hb
      simp at hb
    unfold pyGet at hq
    cases h : c.find? (fun e => e.1 == nm) with
    | none => rw [h] at hq; cases hq
    | some e =>
      rw [h] at hq
      cases attrs with
      | none =>
        rw [show stClear c none = stClear c (some (c.map (fun e => e.1)))
              from rfl]
        rw [hnotsel]
        exact hq
      | some l =>
        rw [hnotsel]
        exact hq

/-- Witness for `clear_only_arrays`: `clear()` with no argument on a
container holding an array-valued `data` and a scalar `distance` clears the
former and preserves the latter. -/
theorem clear_only_arrays_witness :
    pyGet (applyPatch
        [("data", some (PyVal.arr (.a3 [[[(1 : ℚ)]]]))),
         ("distance", some (PyVal.num 2))]
        (stClear
          [("data", some (PyVal.arr (.a3 [[[(1 : ℚ)]]]))),
           ("distance", some (PyVal.num 2))] none)) "data" = none
    ∧ pyGet (applyPatch
        [("data", some (PyVal.arr (.a3 [[[(1 : ℚ)]]]))),
         ("distance", some (PyVal.num 2))]
        (stClear
          [("data", some (PyVal.arr (.a3 [[[(1 : ℚ)]]]))),
           ("distance", some (PyVal.num 2))] none)) "distance"
      = some (PyVal.num 2) :=
  ⟨(clear_only_arrays
      [("data", some (PyVal.arr (.a3 [[[(1 : ℚ)]]]))),
       ("distance", some (PyVal.num 2))] none "data").1
      (.a3 [[[(1 : ℚ)]]]) rfl (by simp),
   (clear_only_arrays
      [("data", some (PyVal.arr (.a3 [[[(1 : ℚ)]]]))),
       ("distance", some (PyVal.num 2))] none "distance").2 2 rfl⟩

/-! ## `STData.get_fit`

The aberration-fit adapter: axis selection, absolute defocus, and the
origin (`center`) dispatch that builds the pixel coordinate axis.  The
external `AberrationsFit` record keeps the fields built here. -/

/-- `np.mean` of a one-dimensional array. -/
def listMean (xs : List ℚ) : ℚ := xs.sum / (xs.length : ℚ)

/-- Mean of a 2-dimensional array along axis 1 (one mean per row). -/
def rowMeans (m : Arr2) : List ℚ := m.map listMean

/-- Mean of a 2-dimensional array along axis 0 (one mean per column). -/
def colMeans (m : Arr2) : List ℚ :=
  (List.range (m.headD []).length).map
    (fun j => listMean (m.map (fun r => r.getD j 0)))

/-- Insert index `i` into an index list sorted by the values of `l`
(auxiliary to `argsort`). -/
def insertIdx (l : List ℤ) (i : ℕ) : List ℕ → List ℕ
  | [] => [i]
  | j :: js =>
      if l.getD i 0 ≤ l.getD j 0 then i :: j :: js else j :: insertIdx l i js

/-- `np.argsort`: indices that sort the list ascending (an insertion sort;
on the strictly monotone `pixels` array built by `get_fit` the answer is
unique, so the sorting algorithm is immaterial). -/
def argsort (l : List ℤ) : List ℕ :=
  (List.range l.length).foldr (fun i acc => insertIdx l i acc) []

/-- The axis-specific fields `get_fit` hands to the external
`AberrationsFit` constructor. -/
structure FitArgs where
  defocus : ℚ
  pixels : List ℤ
  pixel_aberrations : List ℚ
  deriving Repr

/-- The origin (`center`) dispatch of `get_fit`, with `N` the extent
`self.shape[axis - 2]` of the relevant axis:
`if center <= N` take pixels `arange(N) - center`;
`elif center >= N - 1` reverse and negate via `argsort`;
`else raise ValueError('Origin must be outside of the region of interest')`
(note the first guard compares against `N`, not against `0`). -/
def getFitBranch (defocus : ℚ) (collapsed : List ℚ) (N : ℕ) (center : ℤ) :
    Except PyErr FitArgs :=
  if center ≤ (N : ℤ) then
    .ok { defocus := defocus,
          pixels := (List.range N).map (fun i => (i : ℤ) - center),
          pixel_aberrations := collapsed }
  else if (N : ℤ) - 1 ≤ center then
    let pixels := (List.range N).map (fun i => center - (i : ℤ))
    let idxs := argsort pixels
    .ok { defocus := defocus,
          pixels := idxs.map (fun i => pixels.getD i 0),
          pixel_aberrations := idxs.map (fun i => -(collapsed.getD i 0)) }
  else .error (.valueError "Origin must be outside of the region of interest")

/-- `STData.get_fit`: require phase and pixel aberrations, select the axis
(`0` vertical, `1` horizontal, anything else `ValueError`), take the
absolute defocus, collapse `pixel_aberrations[axis]` by a mean over the
other axis, and run the origin dispatch at the axis extent. -/
def get_fit (isphase : Bool) (shp : ℕ × ℕ × ℕ) (aberY aberX : Arr2)
    (dfY dfX : ℚ) (center axis : ℤ) : Except PyErr FitArgs :=
  if !isphase then
    .error (.valueError "phase or pixel_aberrations are not defined inside the container")
  else if axis = 0 then getFitBranch |dfY| (rowMeans aberY) shp.2.1 center
  else if axis = 1 then getFitBranch |dfX| (colMeans aberX) shp.2.2 center
  else .error (.valueError "invalid axis value")

/-- Whether an embedded call rejected the origin with
`'Origin must be outside of the region of interest'`. -/
def isOriginReject : Except PyErr FitArgs → Bool
  | .error (.valueError msg) =>
      msg == "Origin must be outside of the region of interest"
  | _ => false

theorem getFitBranch_never_origin_reject (defocus : ℚ) (collapsed : List ℚ)
    (N : ℕ) (center : ℤ) :
    isOriginReject (getFitBranch defocus collapsed N center) = false := by
  unfold getFitBranch
  by_cases h1 : center ≤ (N : ℤ)
  · rw [if_pos h1]
    rfl
  · have h2 : (N : ℤ) - 1 ≤ center := by
      push_neg at h1
      omega
    rw [if_neg h1, if_pos h2]
    rfl

/-- C3 support: the origin-rejection branch of `get_fit` is dead code — for
every container shape, origin and axis it is never taken (the first guard
`center <= shape[axis - 2]` accepts every origin up to the axis extent, and
any origin beyond it satisfies `center >= shape[axis - 2] - 1`), and in
particular an origin strictly inside the axis range (here `center = 5` on an
axis of extent 10) is accepted rather than rejected. -/
theorem get_fit_inner_origin_accepted :
    (∀ (isphase : Bool) (shp : ℕ × ℕ × ℕ) (aberY aberX : Arr2)
        (dfY dfX : ℚ) (center axis : ℤ),
      isOriginReject (get_fit isphase shp aberY aberX dfY dfX center axis)
        = false)
    ∧ exceptOk (get_fit true (3, 10, 10) [[0]]
        [List.replicate 10 (0 : ℚ)] 1 1 5 1) = true := by
  constructor
  · intro isphase shp aberY aberX dfY dfX center axis
    cases isphase with
    | false => rfl
    | true =>
      unfold get_fit
      by_cases h0 : axis = 0
      · rw [if_pos h0]
        simp only [Bool.not_true, if_false]
        exact getFitBranch_never_origin_reject _ _ _ _
      · rw [show (!true) = false from rfl, if_neg (by simp), if_neg h0]
        by_cases h1 : axis = 1
        · rw [if_pos h1]
          exact getFitBranch_never_origin_reject _ _ _ _
        · rw [if_neg h1]
          rfl
  · rfl

/-! ## `STData.defocus_sweep`

The sweep loop and its local-variance sharpness metric.  A matrix is kept
as explicit dimensions plus an entry function (numpy guarantees
rectangularity); the external `fft_convolve` kernel is a parameter indexed
by the filtered axis, and the external solver's in-place
`update_reference` is a parameter transforming the tracking state. -/

/-- A rectangular 2-dimensional array with explicit dimensions. -/
structure Mat where
  rows : ℕ
  cols : ℕ
  entry : ℕ → ℕ → ℚ

/-- Elementwise square (`reference_image**2`). -/
def Mat.square (m : Mat) : Mat :=
  ⟨m.rows, m.cols, fun i j => (m.entry i j) ^ 2⟩

/-- Python row slice `m[a : -b]` (drop `a` leading and `b` trailing rows). -/
def Mat.sliceRows (m : Mat) (a b : ℕ) : Mat :=
  ⟨m.rows - b - a, m.cols, fun i j => m.entry (i + a) j⟩

/-- Python column slice `m[:, a : -b]`. -/
def Mat.sliceCols (m : Mat) (a b : ℕ) : Mat :=
  ⟨m.rows, m.cols - b - a, fun i j => m.entry i (j + a)⟩

/-- Elementwise combination of two matrices (of equal shapes in every use;
the dimensions are truncated to the common ones). -/
def Mat.zipWith (f : ℚ → ℚ → ℚ) (a b : Mat) : Mat :=
  ⟨min a.rows b.rows, min a.cols b.cols, fun i j => f (a.entry i j) (b.entry i j)⟩

/-- `np.mean` over a whole matrix. -/
def Mat.mean (m : Mat) : ℚ :=
  (((List.range m.rows).map
    (fun i => ((List.range m.cols).map (fun j => m.entry i j)).sum)).sum)
    / ((m.rows * m.cols : ℕ) : ℚ)

/-- The local-variance image of one candidate's reference image:
`mean` starts as the image and `mean_sq` as its square; when the image
extends beyond the window along an axis (`shape > size`, tested on the
*original* image both times), both are convolved along that axis and
trimmed by `[size//2 : -size//2]`; the result is
`(mean_sq - mean²) / mean²`. -/
def rImage (convA : ℕ → Mat → Mat) (size : ℕ) (ref : Mat) : Mat :=
  let mean0 := ref
  let meanSq0 := ref.square
  let mean1 := if size < ref.rows then
      (convA 0 mean0).sliceRows (size / 2) ((size + 1) / 2)
    else mean0
  let meanSq1 := if size < ref.rows then
      (convA 0 meanSq0).sliceRows (size / 2) ((size + 1) / 2)
    else meanSq0
  let mean2 := if size < ref.cols then
      (convA 1 mean1).sliceCols (size / 2) ((size + 1) / 2)
    else mean1
  let meanSq2 := if size < ref.cols then
      (convA 1 meanSq1).sliceCols (size / 2) ((size + 1) / 2)
    else meanSq1
  Mat.zipWith (fun s m => (s - m ^ 2) / m ^ 2) meanSq2 mean2

/-- The external solver's tracking state as `defocus_sweep` sees it:
per-frame pixel offsets along the two axes and the current reference
image. -/
structure StObj where
  di_pix : List ℚ
  dj_pix : List ℚ
  reference_image : Mat

/-- The sweep loop: for each candidate pair `(df1_x, df1_y)` in input order,
rescale the per-frame offsets by the previous-to-current defocus ratio per
axis, run the external in-place reference update, and record the mean of
the local-variance image and the image itself. -/
def sweepLoop (updRef : StObj → StObj) (convA : ℕ → Mat → Mat) (size : ℕ) :
    List (ℚ × ℚ) → StObj → ℚ → ℚ → List ℚ × List Mat
  | [], _, _, _ => ([], [])
  | (d1x, d1y) :: rest, st, d0x, d0y =>
      let st1 : StObj :=
        { st with di_pix := st.di_pix.map (fun v => v * |d0y / d1y|),
                  dj_pix := st.dj_pix.map (fun v => v * |d0x / d1x|) }
      let st2 := updRef st1
      let ri := rImage convA size st2.reference_image
      let rest' := sweepLoop updRef convA size rest st2 d1x d1y
      (Mat.mean ri :: rest'.1, ri :: rest'.2)

/-- `STData.defocus_sweep`: default `defoci_y` to a copy of `defoci_x`,
start from the mean of both candidate arrays (the initial tracking state
`st0` and the bandwidth estimation are the external solver's), and run the
sweep loop over the zipped candidate pairs.  Returns the score list
`r_vals` and the local-variance images of the `extra` dictionary. -/
def defocusSweep (updRef : StObj → StObj) (convA : ℕ → Mat → Mat)
    (size : ℕ) (dfx : List ℚ) (dfy : Option (List ℚ)) (st0 : StObj) :
    List ℚ × List Mat :=
  let dfy := dfy.getD dfx
  sweepLoop updRef convA size (List.zip dfx dfy) st0 (listMean dfx)
    (listMean dfy)

theorem sweepLoop_length (updRef : StObj → StObj) (convA : ℕ → Mat → Mat)
    (size : ℕ) :
    ∀ (cands : List (ℚ × ℚ)) (st : StObj) (d0x d0y : ℚ),
      (sweepLoop updRef convA size cands st d0x d0y).1.length = cands.length
  | [], _, _, _ => rfl
  | (d1x, d1y) :: rest, st, d0x, d0y => by
      simp only [sweepLoop, List.length_cons]
      rw [sweepLoop_length updRef convA size rest]

/-- C8: `defocus_sweep` returns one sharpness score per candidate defocus
pair in input order — exactly `defoci_x.length` scores when `defoci_y`
defaults — and a window `size` at least as large as the reference image's
extent along an axis leaves that axis uncropped (and unconvolved) in the
sharpness computation.  The external convolution kernel preserves array
shape (its documented signature). -/
theorem defocus_sweep_counts_and_window (updRef : StObj → StObj)
    (convA : ℕ → Mat → Mat) (size : ℕ)
    (hconv : ∀ (a : ℕ) (m : Mat),
      (convA a m).rows = m.rows ∧ (convA a m).cols = m.cols) :
    (∀ (dfx : List ℚ) (st0 : StObj),
      (defocusSweep updRef convA size dfx none st0).1.length = dfx.length)
    ∧ (∀ (dfx dfy : List ℚ) (st0 : StObj),
      (defocusSweep updRef convA size dfx (some dfy) st0).1.length
        = min dfx.length dfy.length)
    ∧ (∀ ref : Mat, ref.rows ≤ size →
        (rImage convA size ref).rows = ref.rows)
    ∧ (∀ ref : Mat, ref.cols ≤ size →
        (rImage convA size ref).cols = ref.cols) := by
  refine ⟨?_, ?_, ?_, ?_⟩
  · intro dfx st0
    unfold defocusSweep
    rw [sweepLoop_length]
    simp [List.length_zip]
  · intro dfx dfy st0
    unfold defocusSweep
    rw [sweepLoop_length]
    simp [List.length_zip]
  · intro ref h
    have hnr : ¬ size < ref.rows := not_lt.mpr h
    unfold rImage
    by_cases hc : size < ref.cols
    · simp only [hnr, if_false, hc, if_true]
      show min ((convA 1 ref.square).sliceCols _ _).rows
          ((convA 1 ref).sliceCols _ _).rows = ref.rows
      rw [Mat.sliceCols, Mat.sliceCols]
      simp only
      rw [(hconv 1 ref.square).1, (hconv 1 ref).1]
      simp [Mat.square]
    · simp only [hnr, if_false, hc]
      show min ref.square.rows ref.rows = ref.rows
      simp [Mat.square]
  · intro ref h
    have hnc : ¬ size < ref.cols := not_lt.mpr h
    unfold rImage
    by_cases hr : size < ref.rows
    · simp only [hr, if_true, hnc, if_false]
      show min ((convA 0 ref.square).sliceRows _ _).cols
          ((convA 0 ref).sliceRows _ _).cols = ref.cols
      rw [Mat.sliceRows, Mat.sliceRows]
      simp only
      rw [(hconv 0 ref.square).2, (hconv 0 ref).2]
      simp [Mat.square]
    · simp only [hr, if_false, hnc]
      show min ref.square.cols ref.cols = ref.cols
      simp [Mat.square]

/-- Witness for `defocus_sweep_counts_and_window`: identity stand-ins for
the external kernels, a single candidate defocus, and a `1 × 1` reference
image under a window of 51 pixels. -/
theorem defocus_sweep_counts_and_window_witness :
    (defocusSweep (fun st => st) (fun _ m => m) 51 [(1 : ℚ)] none
        ⟨[], [], ⟨1, 1, fun _ _ => 0⟩⟩).1.length = [(1 : ℚ)].length
    ∧ (rImage (fun _ m => m) 51 ⟨1, 1, fun _ _ => 0⟩).rows
        = (⟨1, 1, fun _ _ => 0⟩ : Mat).rows :=
  ⟨(defocus_sweep_counts_and_window (fun st => st) (fun _ m => m) 51
      (fun _ _ => ⟨rfl, rfl⟩)).1 [(1 : ℚ)] ⟨[], [], ⟨1, 1, fun _ _ => 0⟩⟩,
   (defocus_sweep_counts_and_window (fun st => st) (fun _ m => m) 51
      (fun _ _ => ⟨rfl, rfl⟩)).2.2.1 ⟨1, 1, fun _ _ => 0⟩ (by decide)⟩

/-! ## `STData.import_st`

`import_st` is the one update operation that is *not* decorated with
`dict_to_object`: it assigns `self.pixel_aberrations`, `self.phase`,
`self.reference_image` and `self.scale_map` on the container it is invoked
on and returns `None`.  The embedding therefore maps the pre-state of the
container to its post-state (the same object, mutated); the external
`ct_integrate` kernel, the stored file's `read_shape` and the float
constant `np.pi` are parameters. -/

/-- The attributes of `STData` that `import_st` and `pixel_map` touch or
read, plus an identity token standing for the object identity that the
solver record's weak back-reference is compared against. -/
structure ST1 where
  ident : ℕ
  basis_vectors : Option NpVal
  data : Option NpVal
  frames : Option NpVal
  translations : Option NpVal
  mask : Option NpVal
  good_frames : Option NpVal
  whitefield : Option NpVal
  whitefields : Option NpVal
  distance : ℚ
  wavelength : ℚ
  x_pixel_size : ℚ
  y_pixel_size : ℚ
  defocus_x : Option ℚ
  defocus_y : Option ℚ
  transform : Option Transform
  pixel_aberrations : Option NpVal
  phase : Option NpVal
  reference_image : Option NpVal
  scale_map : Option NpVal
  pixel_translations : Option NpVal

/-- The protocol view of an `ST1` container.  The kind table is the CXI
protocol's (an external module); modelled from the spec: `data`, `mask` and
`whitefields` are stack-kind, `frames` and `translations` sequence-kind,
`whitefield` frame-kind. -/
def ST1.items (c : ST1) : List AttrEntry :=
  [⟨"frames", true, .sequence, c.frames⟩,
   ⟨"translations", true, .sequence, c.translations⟩,
   ⟨"data", true, .stack, c.data⟩,
   ⟨"mask", true, .stack, c.mask⟩,
   ⟨"whitefields", true, .stack, c.whitefields⟩,
   ⟨"whitefield", true, .frame, c.whitefield⟩]

/-- `STData.shape` of an `ST1` container. -/
def ST1.shape (c : ST1) : List ℕ := stShape c.items

/-- The slow-axis plane of `np.indices((h, w))`. -/
def indicesSS (h w : ℕ) : Grid ℚ :=
  (List.range h).map (fun i => List.replicate w (i : ℚ))

/-- The fast-axis plane of `np.indices((h, w))`. -/
def indicesFS (h w : ℕ) : Grid ℚ :=
  List.replicate h ((List.range w).map (fun j => (j : ℚ)))

/-- `STData.pixel_map`: build the identity index grids at the on-disk frame
shape (collapsing an axis to length 1 when the container was integrated
along it), apply the active transform if any, and flip the stacked map
along an axis whose defocus is negative.  `defocus_y` falls back to
`defocus_x` (its lazy default in the container). -/
def pixelMap (readShape : ℕ × ℕ) (c : ST1) :
    Except PyErr (Grid ℚ × Grid ℚ) :=
  let shp := readShape
  let shp := if c.shape.getD 1 0 = 1 then (1, shp.2) else shp
  let shp := if c.shape.getD 2 0 = 1 then (shp.1, 1) else shp
  let ss := indicesSS shp.1 shp.2
  let fs := indicesFS shp.1 shp.2
  match (match c.transform with
         | some t => t.indexArray (ss, fs)
         | none => .ok (ss, fs)) with
  | .error e => .error e
  | .ok g =>
      if c.defocus_x.isSome then
        let g := if c.defocus_y.getD (c.defocus_x.getD 0) < 0 then
            (g.1.reverse, g.2.reverse)
          else g
        let g := if c.defocus_x.getD 0 < 0 then
            (g.1.map List.reverse, g.2.map List.reverse)
          else g
        .ok g
      else .ok g

/-- The fields of the external solver record that `import_st` reads, with
its weak back-reference as an identity token. -/
structure StRecord where
  parent : ℕ
  pixel_map_ss : Grid ℚ
  pixel_map_fs : Grid ℚ
  reference_image : Arr2
  scale_map : Option Arr2

/-- Elementwise difference of two index grids. -/
def gridSub (a b : Grid ℚ) : Grid ℚ :=
  List.zipWith (List.zipWith (fun x y => x - y)) a b

/-- `np.mean` of a 2-dimensional array. -/
def gridMean (g : Grid ℚ) : ℚ :=
  (g.map List.sum).sum / (((g.map List.length).sum : ℕ) : ℚ)

/-- Subtract a scalar from every grid entry. -/
def gridSubScalar (g : Grid ℚ) (k : ℚ) : Grid ℚ :=
  g.map (fun r => r.map (fun x => x - k))

/-- Multiply every grid entry by a scalar. -/
def gridScale (k : ℚ) (g : Grid ℚ) : Grid ℚ :=
  g.map (fun r => r.map (fun x => k * x))

/-- `STData.import_st`, mapped from the pre-state of `self` to its
post-state.  The provenance guard raises unless the solver record's weak
back-reference is this container; then `pixel_aberrations` is set to the
mean-removed pixel-map difference, `phase` to the scaled 2-D integral of
the aberration gradient field (`ct_integrate` external, `piApprox` the
float constant `np.pi`), and `reference_image` and `scale_map` are copied
from the solver record.  No other attribute is assigned, and the method
builds no new container. -/
def importSt (readShape : ℕ × ℕ) (ctIntegrate : Arr2 → Arr2 → Arr2)
    (piApprox : ℚ) (c : ST1) (st : StRecord) : Except PyErr ST1 :=
  if st.parent ≠ c.ident then
    .error (.valueError "st_obj was not derived from this data container")
  else
    match pixelMap readShape c with
    | .error e => .error e
    | .ok pm =>
        let dpmY := gridSub st.pixel_map_ss pm.1
        let dpmX := gridSub st.pixel_map_fs pm.2
        let dpmY := gridSubScalar dpmY (gridMean dpmY)
        let dpmX := gridSubScalar dpmX (gridMean dpmX)
        let dfY := c.defocus_y.getD (c.defocus_x.getD 0)
        let dfX := c.defocus_x.getD 0
        let magY := |(c.distance + dfY) / dfY|
        let magX := |(c.distance + dfX) / dfX|
        let distY := c.distance * (magY - 1) / magY
        let distX := c.distance * (magX - 1) / magX
        let phase := ctIntegrate
          (gridScale (c.y_pixel_size ^ 2 / distY / magY) dpmY)
          (gridScale (c.x_pixel_size ^ 2 / distX / magX) dpmX)
        .ok { c with
              pixel_aberrations := some (.a3 [dpmY, dpmX]),
              phase := some (.a2 (gridScale (2 * piApprox / c.wavelength)
                                    phase)),
              reference_image := some (.a2 st.reference_image),
              scale_map := st.scale_map.map NpVal.a2 }

/-- C1 (amended): `import_st` mutates the container it is invoked on — it
assigns exactly `pixel_aberrations`, `phase`, `reference_image` and
`scale_map` in place (returning no new container) after checking
provenance, and leaves every other attribute of the container unchanged;
every other update operation is decorated with `dict_to_object` and
delivers its changes through a newly constructed container. -/
theorem import_st_frame (readShape : ℕ × ℕ)
    (ctIntegrate : Arr2 → Arr2 → Arr2) (piApprox : ℚ) (c : ST1)
    (st : StRecord) (c' : ST1)
    (h : importSt readShape ctIntegrate piApprox c st = .ok c') :
    c'.ident = c.ident ∧ c'.basis_vectors = c.basis_vectors
    ∧ c'.data = c.data ∧ c'.frames = c.frames
    ∧ c'.translations = c.translations ∧ c'.mask = c.mask
    ∧ c'.good_frames = c.good_frames ∧ c'.whitefield = c.whitefield
    ∧ c'.whitefields = c.whitefields ∧ c'.distance = c.distance
    ∧ c'.wavelength = c.wavelength ∧ c'.x_pixel_size = c.x_pixel_size
    ∧ c'.y_pixel_size = c.y_pixel_size ∧ c'.defocus_x = c.defocus_x
    ∧ c'.defocus_y = c.defocus_y ∧ c'.transform = c.transform
    ∧ c'.pixel_translations = c.pixel_translations
    ∧ c'.reference_image = some (.a2 st.reference_image)
    ∧ c'.scale_map = st.scale_map.map NpVal.a2
    ∧ st.parent = c.ident := by
  by_cases hpar : st.parent = c.ident
  · unfold importSt at h
    rw [if_neg (by simp [hpar])] at h
    cases hpm : pixelMap readShape c with
    | error e =>
        rw [hpm] at h
        exact absurd h (by simp)
    | ok pm =>
        rw [hpm] at h
        simp only [Except.ok.injEq] at h
        subst h
        exact ⟨rfl, rfl, rfl, rfl, rfl, rfl, rfl, rfl, rfl, rfl, rfl, rfl,
               rfl, rfl, rfl, rfl, rfl, rfl, rfl, hpar⟩
  · unfold importSt at h
    rw [if_pos hpar] at h
    exact absurd h (by simp)

/-- A concrete container whose `pixel_aberrations`, `phase`,
`reference_image` and `scale_map` are unset. -/
def cexContainer : ST1 :=
  { ident := 0, basis_vectors := none, data := some (.a3 [[[0]]]),
    frames := none, translations := none, mask := none, good_frames := none,
    whitefield := none, whitefields := none, distance := 1, wavelength := 1,
    x_pixel_size := 1, y_pixel_size := 1, defocus_x := some 1,
    defocus_y := some 1, transform := none, pixel_aberrations := none,
    phase := none, reference_image := none, scale_map := none,
    pixel_translations := none }

/-- A solver record derived from `cexContainer`. -/
def cexRecord : StRecord :=
  { parent := 0, pixel_map_ss := [[0]], pixel_map_fs := [[0]],
    reference_image := [[5]], scale_map := none }

/-- Witness for `import_st_frame` at a concrete container and solver
record: the `data` attribute survives `import_st` unchanged. -/
theorem import_st_frame_witness :
    ((importSt (1, 1) (fun _ _ => [[0]]) 3 cexContainer
        cexRecord).toOption.getD cexContainer).data = cexContainer.data := by
  have h : importSt (1, 1) (fun _ _ => [[0]]) 3 cexContainer cexRecord
      = .ok ((importSt (1, 1) (fun _ _ => [[0]]) 3 cexContainer
              cexRecord).toOption.getD cexContainer) := rfl
  exact (import_st_frame _ _ _ _ _ _ h).2.2.1

/-- C1 (counterexample to the claim as stated): invoking `import_st` on a
container whose `pixel_aberrations` is `None` leaves the container with
`pixel_aberrations` assigned — the operation changes attributes of the very
container it is invoked on instead of delivering all changes through a new
container. -/
theorem import_st_mutates_cex :
    (importSt (1, 1) (fun _ _ => [[0]]) 3 cexContainer cexRecord).map
        (fun c' => c'.pixel_aberrations.isSome) = .ok true
    ∧ cexContainer.pixel_aberrations.isSome = false := by
  constructor
  · rfl
  · rfl

end Pyrost
